import Mathlib

/-!
# Verification of the Lighthouse capture pipeline (`src/main.py`)

A shallow embedding of the capture-buffer → stabilize → segment → rank →
export pipeline of `src/main.py`.  Rasters are modelled as flattened lists
of natural-number pixel values; the OpenCV primitives that the script calls
(background subtraction, flood fill, feature detection, optical flow,
rigid-transform estimation, warping, connected-component labelling, convex
hulls) are external library calls, so they appear as explicit function
parameters (oracles); everything the repository's own code does around them
is translated directly.  Floating-point thresholds (`.9`, `buffer_init`,
`buffer_stability`) are modelled as rationals.
-/

namespace Lighthouse

/-- `cv2.countNonZero`: number of nonzero pixels of a flattened raster. -/
def countNonZero : List Nat → Nat
  | [] => 0
  | v :: vs => (if v ≠ 0 then 1 else 0) + countNonZero vs

/-!
## Startup normalization of `buffer_init` (`main.py` lines 54–57)

```python
if args['buffer_init'] <= 0:
    args['buffer_init'] = .01
elif args['buffer_init'] >= 1:
    args['buffer_init'] = .99
```
-/

/-- Normalization of the `--buffer-init` command-line value. -/
def normalizeBufferInit (x : ℚ) : ℚ :=
  if x ≤ 0 then 1/100
  else if 1 ≤ x then 99/100
  else x

/-!
## Candidate Selector surface-guard (`main.py` lines 250–254)

```python
if score != surface:
    if i > len(frames) * args['buffer_init'] or i + 1 == len(frames):
        candidates.append((score, mask, bw_mask, original_mask, extracted, i, 0))
```

A segmented frame is collected as a candidate exactly when this nested test
succeeds: `n` is the length of the (stabilized) frame list, `i` the frame's
index, `bufferInit` the normalized warm-up fraction.
-/

/-- The surface-guard: `true` iff frame `i` of `n` is collected. -/
def selectCandidate (surface score i n : ℕ) (bufferInit : ℚ) : Bool :=
  if score ≠ surface then
    if (i : ℚ) > (n : ℚ) * bufferInit ∨ i + 1 = n then true else false
  else false

/-!
## Mask binarization (`main.py` line 181)

```python
ret, mask = cv2.threshold(mask, 1, 255, cv2.THRESH_BINARY)
```

`THRESH_BINARY` with threshold `t` and max value `m` maps a pixel `v` to
`m` when `v > t` and to `0` otherwise.
-/

/-- Pixelwise `cv2.threshold(·, 1, 255, cv2.THRESH_BINARY)`. -/
def thresholdBinary (v : ℕ) : ℕ :=
  if v > 1 then 255 else 0

/-!
## Shadow removal (`main.py` lines 174–175)

```python
if args['remove_shadows']:
    mask = cv2.bitwise_and(mask, 255)
```

The KNN background subtractor (created with default arguments, so shadow
detection is on) labels shadow pixels with the gray value 127.
-/

/-- Pixelwise `cv2.bitwise_and(mask, 255)` on a `uint8` raster. -/
def removeShadowsOp (v : ℕ) : ℕ :=
  Nat.land v 255

/-- The value `cv2.createBackgroundSubtractorKNN()` assigns to shadow pixels. -/
def shadowLabel : ℕ := 127

/-!
## Frame Buffer and Stability Detector (`main.py` lines 129–139)

```python
if len(frames) > 0 and args['buffer_stable_frames'] > 0:
    diff = compute_diff(frames[-1], current)
    if diff <= surface * args['buffer_stability']:
        consecutive_stable_frames += 1
    else:
        consecutive_stable_frames = 0
frames.append(current)
```

`compute_diff` is `cv2.norm(a, b)`, an external library call, modelled as an
oracle returning a rational.  `Frame` is kept abstract.
-/

/-- The buffering state: the frame list and the stable-run counter. -/
structure CaptureState (Frame : Type) where
  frames : List Frame
  consecutiveStableFrames : ℕ

/-- The stable-run counter after the conditional update guarding a push:
`if len(frames) > 0 and args['buffer_stable_frames'] > 0: ...`. -/
def stableAfterPush {Frame : Type} (computeDiff : Frame → Frame → ℚ)
    (surface : ℕ) (bufferStability : ℚ) (bufferStableFrames : ℕ)
    (s : CaptureState Frame) (current : Frame) : ℕ :=
  if h : 0 < s.frames.length ∧ 0 < bufferStableFrames then
    if computeDiff (s.frames.getLast (List.length_pos.mp h.1)) current
        ≤ (surface : ℚ) * bufferStability then
      s.consecutiveStableFrames + 1
    else 0
  else s.consecutiveStableFrames

/-- One push of a newly captured frame into the session buffer: the counter
update followed by `frames.append(current)`. -/
def pushFrame {Frame : Type} (computeDiff : Frame → Frame → ℚ) (surface : ℕ)
    (bufferStability : ℚ) (bufferStableFrames : ℕ)
    (s : CaptureState Frame) (current : Frame) : CaptureState Frame :=
  ⟨s.frames ++ [current],
   stableAfterPush computeDiff surface bufferStability bufferStableFrames s current⟩

/-!
## Candidate ranking (`main.py` lines 258–259)

```python
candidates.sort(key=lambda tuple: tuple[0], reverse=True)
candidates = candidates[:args['keep']]
```

Python's `list.sort` is a stable sort; with `reverse=True` it orders by
non-increasing key and keeps equal keys in their original order.  A candidate
is modelled as a pair of its score (`tuple[0]`) and an opaque payload (the
masks, extracted image and frame index of the tuple).
-/

/-- The comparison Python's stable descending sort by score realizes:
`a` may come before `b` iff `a`'s score is ≥ `b`'s. -/
def candidateLE {α : Type} (a b : ℕ × α) : Bool :=
  decide (b.1 ≤ a.1)

/-- Stable descending sort by score, then truncation to the first `keep`. -/
def rankCandidates {α : Type} (keep : ℕ) (candidates : List (ℕ × α)) :
    List (ℕ × α) :=
  (candidates.mergeSort candidateLE).take keep

/-!
## Hole filling (`main.py` lines 183–218)

```python
corners = [[0, 0], [height - 1, 0], [0, width - 1], [height - 1, width - 1]]
if args['fill_holes'] and score != surface:
    positive = mask.copy()
    found = False
    for y,x in corners:
        if positive[y, x] == 0:
            cv2.floodFill(positive, fill_mask, (x, y), 255)
            found = True
            break
    if found:
        filled = cv2.bitwise_or(mask, cv2.bitwise_not(positive))
        filled_score = cv2.countNonZero(filled)
        if filled_score < surface * .9:
            has_empty_corners = False
            for y, x in corners:
                if filled[y, x] == 0:
                    has_empty_corners = True
                    break
            if has_empty_corners:
                score = filled_score
                mask = filled
```

`cv2.floodFill` is an external call, modelled as an oracle taking the mask
and the flattened seed-corner index.  Rasters are flattened row-major, so
the corner `[y, x]` has index `y * width + x`.
-/

/-- Pixelwise `cv2.bitwise_not` on a `uint8` raster: `v ↦ 255 - v`. -/
def bitwiseNot (m : List ℕ) : List ℕ :=
  m.map (fun v => 255 - v)

/-- Pixelwise `cv2.bitwise_or`. -/
def bitwiseOr (a b : List ℕ) : List ℕ :=
  List.zipWith Nat.lor a b

/-- The flattened indices of the four image corners
`[[0,0], [h-1,0], [0,w-1], [h-1,w-1]]`. -/
def cornerIndices (height width : ℕ) : List ℕ :=
  [0 * width + 0, (height - 1) * width + 0,
   0 * width + (width - 1), (height - 1) * width + (width - 1)]

/-- `filled = cv2.bitwise_or(mask, cv2.bitwise_not(positive))` where
`positive` is the flood-filled copy of the mask seeded at corner `c`. -/
def filledMask (floodFill : List ℕ → ℕ → List ℕ) (mask : List ℕ) (c : ℕ) :
    List ℕ :=
  bitwiseOr mask (bitwiseNot (floodFill mask c))

/-- The acceptance test for a filled mask: `filled_score < surface * .9`
(the rational inequality cleared of its denominator:
`10 * filled_score < 9 * surface`) and at least one corner of the filled
mask still background. -/
def acceptFilled (surface : ℕ) (corners : List ℕ) (filled : List ℕ) : Bool :=
  decide (10 * countNonZero filled < 9 * surface) &&
    corners.any (fun c2 => filled.getD c2 0 == 0)

/-- The hole-filling attempt: find the first background corner, flood-fill
from it, and accept the filled mask only if the acceptance test passes;
otherwise (or when no corner is background) keep mask and score unchanged. -/
def fillHoles (floodFill : List ℕ → ℕ → List ℕ) (surface : ℕ)
    (corners : List ℕ) (mask : List ℕ) (score : ℕ) : List ℕ × ℕ :=
  match corners.find? (fun c => mask.getD c 0 == 0) with
  | none => (mask, score)
  | some c =>
      if acceptFilled surface corners (filledMask floodFill mask c) then
        (filledMask floodFill mask c,
         countNonZero (filledMask floodFill mask c))
      else (mask, score)

/-- The hole-filling stage as guarded in `main`:
`if args['fill_holes'] and score != surface:`. -/
def fillHolesStage (fillHolesFlag : Bool) (floodFill : List ℕ → ℕ → List ℕ)
    (surface : ℕ) (corners : List ℕ) (mask : List ℕ) (score : ℕ) :
    List ℕ × ℕ :=
  if fillHolesFlag = true ∧ score ≠ surface then
    fillHoles floodFill surface corners mask score
  else (mask, score)

/-!
## Contour simplification (`main.py` lines 226–234)

```python
image, contours, hierarchy = cv2.findContours(bw_mask, cv2.RETR_EXTERNAL, cv2.CHAIN_APPROX_NONE)
bw_mask = numpy.zeros((height, width), numpy.uint8)
for cnt in contours:
    if cv2.contourArea(cnt) > args['min_size'] or 0:
        hull = cv2.convexHull(cnt)
        cv2.fillPoly(bw_mask, [hull], 255, 8)
```

`cv2.findContours`, `cv2.contourArea` (a float) and `cv2.convexHull` are
external calls; a contour is an opaque value with an area oracle and a
convex-hull-raster oracle (the set of flattened pixel indices `fillPoly`
colors).  `or 0` in the guard is Python's falsy `0`, i.e. `∨ False`.
-/

/-- `cv2.fillPoly(m, [hull], color, 8)`: set the hull's pixels to `color`. -/
def fillPoly (m : List ℕ) (hull : List ℕ) (color : ℕ) : List ℕ :=
  (List.range m.length).map (fun p => if p ∈ hull then color else m.getD p 0)

/-- The rebuilt binary mask of the contour-simplification step: a fresh zero
raster of `surface` pixels in which every external contour with area
strictly above `min_size` contributes its rasterized convex hull. -/
def contourMask {C : Type} (contourArea : C → ℚ) (convexHull : C → List ℕ)
    (minSize : ℕ) (surface : ℕ) (contours : List C) : List ℕ :=
  contours.foldl
    (fun bw cnt =>
      if contourArea cnt > (minSize : ℚ) ∨ False then
        fillPoly bw (convexHull cnt) 255
      else bw)
    (List.replicate surface 0)

/-!
## Exporter small-component removal (`main.py` lines 266–293)

```python
if args['min_size'] > 0:
    number, components = cv2.connectedComponents(best_bw_mask)
    flattened = components.flatten()
    stats = numpy.bincount(flattened)
    removing = 0
    for i, stat in enumerate(stats):
        if stat == 0:
            continue
        if stat < args['min_size']:
            kill_list = components == i
            best_mask[kill_list] = 0
            best_extracted[kill_list] = 0
            removing += 1
split_1, split_2, split_3 = cv2.split(best_extracted)
transparency = cv2.merge([split_1, split_2, split_3, best_bw_mask])
```

`cv2.connectedComponents` is an external call; its flattened labelling is the
`labels` parameter.  `numpy.bincount` runs over labels `0 .. max`, giving
each label `l` its occurrence count `labels.count l`, and `enumerate`
processes them in increasing order.  The kill loop mutates `best_mask` (the
3-channel color mask) and `best_extracted` in lockstep; each array is
modelled by its own application of the loop.  Channel values are modelled one
per pixel (numpy broadcasts the boolean `kill_list` over the channels).
-/

/-- `best_mask[components == l] = 0`: zero every pixel whose label is `l`. -/
def zeroComponent (labels img : List ℕ) (l : ℕ) : List ℕ :=
  match labels, img with
  | a :: ls, v :: vs => (if a = l then 0 else v) :: zeroComponent ls vs l
  | _, _ => []

/-- One iteration of the `enumerate(stats)` loop body on one image: skip
labels of count 0, kill labels of count below `min_size`. -/
def killStep (minSize : ℕ) (labels : List ℕ) (acc : List ℕ) (l : ℕ) : List ℕ :=
  if labels.count l = 0 then acc
  else if labels.count l < minSize then zeroComponent labels acc l
  else acc

/-- The whole kill loop: every label in `bincount`'s range `0 .. max`. -/
def removeSmallComponents (minSize : ℕ) (labels img : List ℕ) : List ℕ :=
  (List.range (labels.foldr max 0 + 1)).foldl (killStep minSize labels) img

/-- The three rasters the exporter writes for one candidate: the cleaned
color mask, the cleaned extracted image, and the alpha channel of the
composed 4-channel `transparency` image. -/
structure ExportOut where
  colorMask : List ℕ
  extracted : List ℕ
  alpha : List ℕ

/-- One exporter iteration on a kept candidate: component-noise removal on
`best_mask` and `best_extracted` when `min_size > 0`, then the 4-channel
compose whose alpha channel is `best_bw_mask`. -/
def exportCandidate (minSize : ℕ) (labels bwMask colorMask extracted : List ℕ) :
    ExportOut :=
  if 0 < minSize then
    ⟨removeSmallComponents minSize labels colorMask,
     removeSmallComponents minSize labels extracted,
     bwMask⟩
  else ⟨colorMask, extracted, bwMask⟩

/-!
## Stabilizer (`main.py` lines 298–413)

```python
prev = frames[0]
prev_gray = cv2.cvtColor(prev, cv2.COLOR_RGB2GRAY)
stabilized.append(prev)
for cur in frames[1:]:
    cur_gray = cv2.cvtColor(cur, cv2.COLOR_RGB2GRAY)
    prev_corner = cv2.goodFeaturesToTrack(prev_gray, ...)
    if not (prev_corner is None):
        cur_corner, status, err = cv2.calcOpticalFlowPyrLK(prev_gray, cur_gray, prev_corner, None)
        # weed out bad matches ...
        transform = cv2.estimateRigidTransform(prev_corner2, cur_corner2, False)
        if transform is None:
            print("stabilize: could not find transform, skipping frame")
        else:
            dx = transform[0, 2]; dy = transform[1, 2]
            if dx == 0. and dy == 0.:
                result = cur
            else:
                da = math.atan2(transform[1, 0], transform[0, 0])
                ... accumulate, warp ...
            stabilized.append(result)
    else:
        print("stabilize: could not find prev_corner, skipping frame")
    prev = cur
    prev_gray = cur_gray
```

The OpenCV/numpy calls are oracles.  `Frame`, `Gray` and the accumulated
3×3 transform type `Acc` are abstract.
-/

/-- A 2D feature point (float coordinates, modelled as rationals). -/
abbrev Point : Type := ℚ × ℚ

/-- The entries of the estimated rigid transform read by the control flow:
the translation `transform[0,2]`, `transform[1,2]` and the rotation entries
`transform[0,0]`, `transform[1,0]` fed to `math.atan2`. -/
structure Transform where
  m00 : ℚ
  m10 : ℚ
  dx : ℚ
  dy : ℚ

/-- The external primitives the stabilizer calls. -/
structure StabOracles (Frame Gray Acc : Type) where
  cvtGray : Frame → Gray
  goodFeaturesToTrack : Gray → Option (List Point)
  calcOpticalFlowPyrLK : Gray → Gray → List Point → List Point × List Bool
  estimateRigidTransform : List Point → List Point → Option Transform
  atan2 : ℚ → ℚ → ℚ
  updateAccTransform : Acc → Transform → Acc
  warpAffine : Frame → Acc → Frame
  identityAcc : Acc

/-- The mutable state of the stabilization loop. -/
structure StabState (Frame Gray Acc : Type) where
  prev : Frame
  prevGray : Gray
  accDx : ℚ
  accDy : ℚ
  accDa : ℚ
  minAccDx : ℚ
  maxAccDx : ℚ
  minAccDy : ℚ
  maxAccDy : ℚ
  accTransform : Acc
  stabilized : List Frame

/-- The "weed out bad matches" loop (lines 338–347): numpy arrays of length
`len(status)` pre-filled with the zero point, whose first `j` entries are
overwritten with the points whose status flag is true. -/
def weedOut (status : List Bool) (pts : List Point) : List Point :=
  ((status.zip pts).filter (fun sp => sp.1)).map (fun sp => sp.2) ++
    List.replicate
      (status.length - ((status.zip pts).filter (fun sp => sp.1)).length)
      ((0 : ℚ), (0 : ℚ))

/-- The body of `for cur in frames[1:]`.  Whatever branch is taken, `prev`
and `prev_gray` advance to the current frame at the end. -/
def stabilizeStep {Frame Gray Acc : Type} (env : StabOracles Frame Gray Acc)
    (s : StabState Frame Gray Acc) (cur : Frame) : StabState Frame Gray Acc :=
  match env.goodFeaturesToTrack s.prevGray with
  | none =>
      { s with prev := cur, prevGray := env.cvtGray cur }
  | some prevCorner =>
      match env.calcOpticalFlowPyrLK s.prevGray (env.cvtGray cur) prevCorner with
      | (curCorner, status) =>
      match env.estimateRigidTransform
          (weedOut status prevCorner)
          (weedOut status curCorner) with
      | none =>
          { s with prev := cur, prevGray := env.cvtGray cur }
      | some t =>
          if t.dx = 0 ∧ t.dy = 0 then
            { s with stabilized := s.stabilized ++ [cur],
                     prev := cur, prevGray := env.cvtGray cur }
          else
            { prev := cur, prevGray := env.cvtGray cur,
              accDx := s.accDx + t.dx,
              accDy := s.accDy + t.dy,
              accDa := s.accDa + env.atan2 t.m10 t.m00,
              maxAccDx := if s.accDx + t.dx > s.maxAccDx then s.accDx + t.dx
                else s.maxAccDx,
              minAccDx := if s.accDx + t.dx > s.maxAccDx then s.minAccDx
                else if s.accDx + t.dx < s.minAccDx then s.accDx + t.dx
                else s.minAccDx,
              maxAccDy := if s.accDy + t.dy > s.maxAccDy then s.accDy + t.dy
                else s.maxAccDy,
              minAccDy := if s.accDy + t.dy > s.maxAccDy then s.minAccDy
                else if s.accDy + t.dy < s.minAccDy then s.accDy + t.dy
                else s.minAccDy,
              accTransform := env.updateAccTransform s.accTransform t,
              stabilized := s.stabilized ++
                [env.warpAffine cur (env.updateAccTransform s.accTransform t)] }

/-- The whole `stabilize(frames)` pass on a nonempty input: frame 0 is the
initial reference and the first output; the final crop loop copies every
frame unchanged (the crop itself is commented out in the source). -/
def stabilize {Frame Gray Acc : Type} (env : StabOracles Frame Gray Acc)
    (first : Frame) (rest : List Frame) : List Frame :=
  ((rest.foldl (stabilizeStep env)
    { prev := first, prevGray := env.cvtGray first,
      accDx := 0, accDy := 0, accDa := 0,
      minAccDx := 0, maxAccDx := 0, minAccDy := 0, maxAccDy := 0,
      accTransform := env.identityAcc,
      stabilized := [first] }).stabilized).foldl (fun acc f => acc ++ [f]) []

end Lighthouse

namespace Lighthouse

/-- C10: the configured warm-up fraction is normalized once at startup — any
value ≤ 0 is replaced by 0.01 and any value ≥ 1 by 0.99 — so the fraction
used by the surface-guard always lies strictly between 0 and 1. -/
theorem normalizeBufferInit_mem_Ioo (x : ℚ) :
    (x ≤ 0 → normalizeBufferInit x = 1/100) ∧
    (1 ≤ x → normalizeBufferInit x = 99/100) ∧
    0 < normalizeBufferInit x ∧ normalizeBufferInit x < 1 := by
  unfold normalizeBufferInit
  split
  · refine ⟨fun _ => rfl, fun h1 => ?_, by norm_num⟩
    · exact absurd (le_trans h1 (by assumption)) (by norm_num)
  · split
    · refine ⟨fun h0 => ?_, fun _ => rfl, by norm_num⟩
      · exact absurd h0 (by assumption)
    · refine ⟨fun h0 => absurd h0 (by assumption), fun h1 => absurd h1 (by assumption), ?_, ?_⟩
      · exact lt_of_not_le (by assumption)
      · exact lt_of_not_le (by assumption)

/-- C10 witness: the theorem applied at the concrete input 1/2. -/
theorem normalizeBufferInit_mem_Ioo_witness :
    ((1:ℚ)/2 ≤ 0 → normalizeBufferInit (1/2) = 1/100) ∧
    ((1:ℚ) ≤ 1/2 → normalizeBufferInit (1/2) = 99/100) ∧
    0 < normalizeBufferInit (1/2) ∧ normalizeBufferInit (1/2) < 1 :=
  normalizeBufferInit_mem_Ioo (1/2)

/-- C1 counterexample: a frame whose score (1) differs from surface (4), at
index 0 of a 3-frame sequence with warm-up fraction 9/10, is *not* collected,
refuting "a frame whose score differs from surface is always collected". -/
theorem selectCandidate_discards_early_nonsurface :
    selectCandidate 4 1 0 3 (9/10) = false ∧ (1 : ℕ) ≠ 4 := by
  constructor
  · unfold selectCandidate
    norm_num
  · decide

/-- C1 (amended): a segmented frame is collected as a Candidate iff its score
differs from surface AND (its index lies beyond `buffer_init * N'` or it is
the final frame); equivalently it is discarded iff its score equals surface
OR (its index is within the warm-up prefix and it is not the final frame). -/
theorem selectCandidate_iff (surface score i n : ℕ) (bufferInit : ℚ) :
    selectCandidate surface score i n bufferInit = true ↔
      (score ≠ surface ∧ ((i : ℚ) > (n : ℚ) * bufferInit ∨ i + 1 = n)) := by
  unfold selectCandidate
  split
  · split
    · simp_all
    · simp_all
  · simp_all

/-- C4 counterexample: a smoothed pixel value of exactly 1 is mapped to 0
(background), not 255, refuting "a smoothed value of exactly 1 becomes
foreground". -/
theorem thresholdBinary_one_eq_zero :
    thresholdBinary 1 = 0 ∧ (0 : ℕ) ≠ 255 := by
  constructor
  · decide
  · decide

/-- C4 (amended): binarization maps any smoothed pixel value strictly greater
than 1 to foreground (255) and any value ≤ 1 (in particular exactly 1, and 0)
to background (0). -/
theorem thresholdBinary_spec (v : ℕ) :
    (1 < v → thresholdBinary v = 255) ∧ (v ≤ 1 → thresholdBinary v = 0) := by
  unfold thresholdBinary
  constructor
  · intro h
    simp [h]
  · intro h
    simp [Nat.not_lt_of_le h]

/-- C4 witness: the amended theorem applied at the concrete inputs 2 and 1. -/
theorem thresholdBinary_spec_witness :
    thresholdBinary 2 = 255 ∧ thresholdBinary 1 = 0 :=
  ⟨(thresholdBinary_spec 2).1 (by decide), (thresholdBinary_spec 1).2 (by decide)⟩

set_option maxRecDepth 4096 in
/-- C3 (code bug): `cv2.bitwise_and(mask, 255)` is the identity on every
`uint8` pixel value, so a shadow-labelled pixel (127) is left unchanged —
nonzero — and the subsequent binarization maps it to foreground 255; shadow
pixels are never set to background by this operation. -/
theorem removeShadowsOp_is_identity :
    (∀ v : Fin 256, removeShadowsOp v = v) ∧
    removeShadowsOp shadowLabel = shadowLabel ∧
    shadowLabel ≠ 0 ∧
    thresholdBinary (removeShadowsOp shadowLabel) = 255 := by
  refine ⟨?_, by decide, by decide, by decide⟩
  decide

/-- C7 counterexample: with `buffer_stable_frames = 0` (the default), pushing a
frame identical to the last buffered one (diff oracle constantly 0) into a
buffer already holding one frame leaves the stable-run counter at 0 instead of
incrementing it, refuting "for every push into a buffer holding ≥ 1 frame the
diff is computed and the counter incremented when diff ≤ surface * ratio". -/
theorem pushFrame_default_no_increment :
    (pushFrame (fun _ _ => (0:ℚ)) 4 (1/10) 0
        (⟨[5], 0⟩ : CaptureState ℕ) 5).consecutiveStableFrames = 0 ∧
    (0 : ℕ) ≠ 0 + 1 := by
  constructor
  · rfl
  · decide

/-- C7 (amended): when the buffer already holds ≥ 1 frame AND the configured
required-stable-frames count is positive, the pixelwise difference with the
last buffered frame is computed and decides the counter: diff ≤
surface * stability_ratio increments it, otherwise it resets to 0; the frame
is appended in either case.  Hence with that configuration a sequence of
identical frames (diff always 0, threshold nonnegative) strictly increases the
counter on every push and never resets it. -/
theorem pushFrame_counter {Frame : Type} (computeDiff : Frame → Frame → ℚ)
    (surface : ℕ) (bufferStability : ℚ) (bufferStableFrames : ℕ)
    (s : CaptureState Frame) (current : Frame)
    (h1 : s.frames ≠ []) (h2 : 0 < bufferStableFrames) :
    (computeDiff (s.frames.getLast h1) current ≤ (surface : ℚ) * bufferStability →
      (pushFrame computeDiff surface bufferStability bufferStableFrames
        s current).consecutiveStableFrames = s.consecutiveStableFrames + 1) ∧
    (¬ computeDiff (s.frames.getLast h1) current ≤ (surface : ℚ) * bufferStability →
      (pushFrame computeDiff surface bufferStability bufferStableFrames
        s current).consecutiveStableFrames = 0) ∧
    (pushFrame computeDiff surface bufferStability bufferStableFrames
      s current).frames = s.frames ++ [current] := by
  have hlen : 0 < s.frames.length := List.length_pos.mpr h1
  refine ⟨fun hd => ?_, fun hd => ?_, rfl⟩
  · show stableAfterPush computeDiff surface bufferStability bufferStableFrames
        s current = s.consecutiveStableFrames + 1
    unfold stableAfterPush
    rw [dif_pos ⟨hlen, h2⟩, if_pos hd]
  · show stableAfterPush computeDiff surface bufferStability bufferStableFrames
        s current = 0
    unfold stableAfterPush
    rw [dif_pos ⟨hlen, h2⟩, if_neg hd]

/-- C7 witness: the amended theorem applied at a concrete push — buffer
`[5]`, incoming frame `5`, zero diff oracle, one required stable frame. -/
theorem pushFrame_counter_witness :
    (pushFrame (fun _ _ => (0:ℚ)) 4 (1/10) 1
        (⟨[5], 0⟩ : CaptureState ℕ) 5).consecutiveStableFrames = 0 + 1 :=
  (pushFrame_counter (fun _ _ => (0:ℚ)) 4 (1/10) 1 ⟨[5], 0⟩ 5
    (by decide) (by decide)).1 (by norm_num)

/-- C8: the kept candidate set is the stable descending-by-score sort of the
collected candidates truncated to the first `keep`: its length is
min(keep, count) (hence ≤ both), it is sorted with non-increasing scores, it
is a sublist of the full sorted list, the full sorted list is a permutation
of the collected candidates, and for every score value the candidates of
that score appear in their original relative order (stability). -/
theorem rankCandidates_spec {α : Type} (keep : ℕ) (candidates : List (ℕ × α)) :
    (rankCandidates keep candidates).length = min keep candidates.length ∧
    List.Pairwise (fun a b => b.1 ≤ a.1) (rankCandidates keep candidates) ∧
    List.Sublist (rankCandidates keep candidates) (candidates.mergeSort candidateLE) ∧
    (candidates.mergeSort candidateLE).Perm candidates ∧
    ∀ s : ℕ, (candidates.mergeSort candidateLE).filter (fun c => c.1 == s)
        = candidates.filter (fun c => c.1 == s) := by
  have trans : ∀ a b c : ℕ × α, candidateLE a b → candidateLE b c → candidateLE a c := by
    intro a b c hab hbc
    simp only [candidateLE, decide_eq_true_eq] at *
    omega
  have total : ∀ a b : ℕ × α, candidateLE a b || candidateLE b a := by
    intro a b
    simp only [candidateLE, Bool.or_eq_true, decide_eq_true_eq]
    omega
  refine ⟨?_, ?_, ?_, ?_, ?_⟩
  · simp [rankCandidates]
  · have hs := List.sorted_mergeSort trans total candidates
    have hs' : List.Pairwise (fun a b : ℕ × α => b.1 ≤ a.1)
        (candidates.mergeSort candidateLE) := by
      refine hs.imp ?_
      intro a b h
      simpa [candidateLE] using h
    exact hs'.sublist (List.take_sublist keep _)
  · exact List.take_sublist keep _
  · exact List.mergeSort_perm candidates candidateLE
  · intro s
    have hpw : (candidates.filter (fun c => c.1 == s)).Pairwise
        (fun a b => candidateLE a b) := by
      apply List.pairwise_of_forall_mem_list
      intro a ha b hb
      have ha' := (List.mem_filter.mp ha).2
      have hb' := (List.mem_filter.mp hb).2
      simp only [beq_iff_eq] at ha' hb'
      simp [candidateLE, ha', hb']
    have hsub : List.Sublist (candidates.filter (fun c => c.1 == s))
        (candidates.mergeSort candidateLE) :=
      List.sublist_mergeSort trans total hpw (List.filter_sublist candidates)
    have hsub2 : List.Sublist (candidates.filter (fun c => c.1 == s))
        ((candidates.mergeSort candidateLE).filter (fun c => c.1 == s)) := by
      have := hsub.filter (fun c => c.1 == s)
      rwa [List.filter_eq_self.mpr
        (fun a ha => (List.mem_filter.mp ha).2)] at this
    have hlen : ((candidates.mergeSort candidateLE).filter
        (fun c => c.1 == s)).length
        = (candidates.filter (fun c => c.1 == s)).length :=
      ((List.mergeSort_perm candidates candidateLE).filter _).length_eq
    exact (hsub2.eq_of_length hlen.symm).symm

/-- A bitwise or of naturals is nonzero as soon as its left operand is. -/
theorem lor_ne_zero_left {a b : ℕ} (h : a ≠ 0) : a ||| b ≠ 0 := by
  intro hab
  apply h
  apply Nat.eq_of_testBit_eq
  intro i
  have hi := congrArg (fun n => n.testBit i) hab
  simp only [Nat.testBit_or, Nat.zero_testBit, Bool.or_eq_false_iff] at hi
  simp [hi.1]

/-- Or-ing a second raster onto a raster never loses nonzero pixels. -/
theorem countNonZero_le_bitwiseOr (a : List ℕ) :
    ∀ b : List ℕ, a.length ≤ b.length →
      countNonZero a ≤ countNonZero (bitwiseOr a b) := by
  induction a with
  | nil => intro b _; simp [countNonZero, bitwiseOr]
  | cons v vs ih =>
    intro b hb
    cases b with
    | nil => simp at hb
    | cons w ws =>
      simp only [bitwiseOr, List.zipWith_cons_cons, countNonZero]
      have h1 : (if v ≠ 0 then 1 else 0) ≤ (if v ||| w ≠ 0 then 1 else 0) := by
        by_cases hv : v = 0
        · simp [hv]
        · simp [hv, lor_ne_zero_left hv]
      have h2 := ih ws (by simpa using hb)
      exact Nat.add_le_add h1 h2

/-- C6: hole-filling policy.  With hole-filling enabled and `score ≠ surface`:
the resulting score is never below the pre-fill score (in particular when the
filled mask — the bitwise OR of the original mask with the complement of the
flood-filled copy — is accepted); and whenever the filled score would reach
`≥ 0.9 * surface`, or no corner of the filled mask remains background, or no
corner of the original mask was background to begin with, the mask and score
are returned unchanged. -/
theorem fillHolesStage_policy (floodFill : List ℕ → ℕ → List ℕ) (surface : ℕ)
    (corners : List ℕ) (mask : List ℕ) (score : ℕ)
    (hflood : ∀ m c, (floodFill m c).length = m.length)
    (hscore : score = countNonZero mask)
    (hneq : score ≠ surface) :
    score ≤ (fillHolesStage true floodFill surface corners mask score).2 ∧
    (∀ c, corners.find? (fun c0 => mask.getD c0 0 == 0) = some c →
      acceptFilled surface corners (filledMask floodFill mask c) = true →
      fillHolesStage true floodFill surface corners mask score
        = (filledMask floodFill mask c,
           countNonZero (filledMask floodFill mask c))) ∧
    (∀ c, corners.find? (fun c0 => mask.getD c0 0 == 0) = some c →
      (9 * surface ≤ 10 * countNonZero (filledMask floodFill mask c) ∨
        ∀ c2 ∈ corners, (filledMask floodFill mask c).getD c2 0 ≠ 0) →
      fillHolesStage true floodFill surface corners mask score
        = (mask, score)) ∧
    (corners.find? (fun c0 => mask.getD c0 0 == 0) = none →
      fillHolesStage true floodFill surface corners mask score
        = (mask, score)) := by
  have hstage : fillHolesStage true floodFill surface corners mask score
      = fillHoles floodFill surface corners mask score := by
    unfold fillHolesStage
    rw [if_pos ⟨rfl, hneq⟩]
  have hfilled_ge : ∀ c, score ≤ countNonZero (filledMask floodFill mask c) := by
    intro c
    rw [hscore]
    apply countNonZero_le_bitwiseOr
    simp [bitwiseNot, hflood]
  refine ⟨?_, ?_, ?_, ?_⟩
  · rw [hstage]
    cases hfind : corners.find? (fun c0 => mask.getD c0 0 == 0) with
    | none =>
      simp only [fillHoles, hfind]
      exact Nat.le_refl score
    | some c =>
      by_cases hacc : acceptFilled surface corners (filledMask floodFill mask c) = true
      · simp only [fillHoles, hfind, hacc, if_true]
        exact hfilled_ge c
      · simp only [fillHoles, hfind, hacc, if_false]
        simp
  · intro c hc hacc
    rw [hstage]
    simp only [fillHoles, hc, hacc, if_true]
  · intro c hc hrej
    have hacc : acceptFilled surface corners (filledMask floodFill mask c) = false := by
      rw [Bool.eq_false_iff]
      intro hacc
      unfold acceptFilled at hacc
      rw [Bool.and_eq_true] at hacc
      obtain ⟨h1, h2⟩ := hacc
      rcases hrej with hge | hall
      · rw [decide_eq_true_eq] at h1
        omega
      · rw [List.any_eq_true] at h2
        obtain ⟨c2, hc2, hzero⟩ := h2
        exact hall c2 hc2 (by simpa using hzero)
    rw [hstage]
    simp only [fillHoles, hc, hacc, Bool.false_eq_true, if_false]
  · intro hnone
    rw [hstage]
    simp only [fillHoles, hnone]

/-- C6 witness: the policy theorem applied to a concrete mask `[0,255,0,255]`
(score 2, surface 4), corner list `[0]`, and the everything-to-255 flood
oracle. -/
theorem fillHolesStage_policy_witness :
    2 ≤ (fillHolesStage true (fun m _ => m.map (fun _ => 255)) 4 [0]
          [0, 255, 0, 255] 2).2 :=
  (fillHolesStage_policy (fun m _ => m.map (fun _ => 255)) 4 [0]
    [0, 255, 0, 255] 2 (by intro m c; simp) (by decide) (by decide)).1

/-- Reading a pixel of a `fillPoly` result: inside the raster it is `color`
on the hull and the old value elsewhere; outside it is the default 0. -/
theorem fillPoly_getD (m hull : List ℕ) (color p : ℕ) :
    (fillPoly m hull color).getD p 0
      = if p < m.length then (if p ∈ hull then color else m.getD p 0)
        else 0 := by
  unfold fillPoly
  rcases Nat.lt_or_ge p m.length with hp | hp
  · rw [if_pos hp, List.getD_eq_getElem?_getD, List.getElem?_map,
      List.getElem?_range hp]
    rfl
  · rw [if_neg (Nat.not_lt.mpr hp), List.getD_eq_getElem?_getD]
    have hlen : ((List.range m.length).map
        (fun q => if q ∈ hull then color else m.getD q 0)).length ≤ p := by
      simpa using hp
    rw [List.getElem?_eq_none hlen]
    rfl

/-- Invariant of the contour loop: a nonzero pixel of the accumulated mask
either was nonzero initially or lies in the convex hull of some processed
contour whose area passed the guard. -/
theorem contourFold_nonzero {C : Type} (contourArea : C → ℚ)
    (convexHull : C → List ℕ) (minSize : ℕ) :
    ∀ (contours : List C) (init : List ℕ) (p : ℕ),
      (contours.foldl
        (fun bw cnt =>
          if contourArea cnt > (minSize : ℚ) ∨ False then
            fillPoly bw (convexHull cnt) 255
          else bw) init).getD p 0 ≠ 0 →
      init.getD p 0 ≠ 0 ∨
        ∃ cnt ∈ contours, contourArea cnt > (minSize : ℚ) ∧ p ∈ convexHull cnt := by
  intro contours
  induction contours with
  | nil =>
    intro init p h
    exact Or.inl h
  | cons cnt cnts ih =>
    intro init p h
    rw [List.foldl_cons] at h
    rcases ih _ p h with hinit | ⟨cnt2, hmem, harea, hp⟩
    · by_cases hc : contourArea cnt > (minSize : ℚ) ∨ False
      · rw [if_pos hc] at hinit
        rw [fillPoly_getD] at hinit
        by_cases hlt : p < init.length
        · rw [if_pos hlt] at hinit
          by_cases hhull : p ∈ convexHull cnt
          · exact Or.inr ⟨cnt, List.mem_cons_self cnt cnts,
              hc.resolve_right (fun hf => hf.elim), hhull⟩
          · rw [if_neg hhull] at hinit
            exact Or.inl hinit
        · rw [if_neg hlt] at hinit
          exact absurd rfl hinit
      · rw [if_neg hc] at hinit
        exact Or.inl hinit
    · exact Or.inr ⟨cnt2, List.mem_cons_of_mem cnt hmem, harea, hp⟩

/-- C9: with contour simplification enabled, every nonzero pixel of the
rebuilt binary mask lies in the rasterized convex hull of an external
contour whose area is strictly greater than `min_size`; contours of area
≤ `min_size` contribute no pixels, so the recomputed score counts none of
their pixels. -/
theorem contourMask_only_large {C : Type} (contourArea : C → ℚ)
    (convexHull : C → List ℕ) (minSize surface : ℕ) (contours : List C)
    (p : ℕ)
    (h : (contourMask contourArea convexHull minSize surface contours).getD p 0 ≠ 0) :
    ∃ cnt ∈ contours, contourArea cnt > (minSize : ℚ) ∧ p ∈ convexHull cnt := by
  rcases contourFold_nonzero contourArea convexHull minSize contours
      (List.replicate surface 0) p h with hinit | hfound
  · refine absurd ?_ hinit
    rw [List.getD_eq_getElem?_getD]
    rcases Nat.lt_or_ge p surface with hp | hp
    · rw [List.getElem?_replicate_of_lt hp]
      rfl
    · rw [List.getElem?_eq_none (by simpa using hp)]
      rfl
  · exact hfound

/-- C9 witness: one contour of area 4 > 3 whose hull is pixel 1, on a
3-pixel raster; the theorem applied at the nonzero pixel 1. -/
theorem contourMask_only_large_witness :
    ∃ cnt ∈ [7], (fun _ : ℕ => (4 : ℚ)) cnt > ((3 : ℕ) : ℚ) ∧
      1 ∈ (fun _ : ℕ => [1]) cnt :=
  contourMask_only_large (fun _ : ℕ => (4 : ℚ)) (fun _ : ℕ => [1]) 3 3 [7] 1
    (by norm_num [contourMask, fillPoly, List.range_succ])

/-- An in-range `getD` is a member of the list. -/
theorem getD_mem_of_lt {l : List ℕ} {p : ℕ} (hp : p < l.length) :
    l.getD p 0 ∈ l := by
  rw [List.getD_eq_getElem?_getD, List.getElem?_eq_getElem hp]
  exact List.getElem_mem hp

/-- Every member is bounded by the `foldr max 0` of its list. -/
theorem le_foldr_max {a : ℕ} : ∀ {l : List ℕ}, a ∈ l → a ≤ l.foldr max 0 := by
  intro l
  induction l with
  | nil =>
    intro h
    cases h
  | cons b bs ih =>
    intro h
    rw [List.foldr_cons]
    rcases List.mem_cons.mp h with rfl | hmem
    · exact Nat.le_max_left _ _
    · exact Nat.le_trans (ih hmem) (Nat.le_max_right _ _)

/-- Length of `zeroComponent`. -/
theorem zeroComponent_length (l : ℕ) : ∀ labels img : List ℕ,
    (zeroComponent labels img l).length = min labels.length img.length := by
  intro labels
  induction labels with
  | nil =>
    intro img
    simp [zeroComponent]
  | cons a ls ih =>
    intro img
    cases img with
    | nil => simp [zeroComponent]
    | cons v vs =>
      simp [zeroComponent, ih vs, Nat.succ_min_succ]

/-- Pixel values after `zeroComponent`. -/
theorem zeroComponent_getD (l : ℕ) : ∀ (labels img : List ℕ) (p : ℕ),
    labels.length = img.length → p < labels.length →
    (zeroComponent labels img l).getD p 0
      = if labels.getD p 0 = l then 0 else img.getD p 0 := by
  intro labels
  induction labels with
  | nil =>
    intro img p _ hp
    simp at hp
  | cons a ls ih =>
    intro img p hlen hp
    cases img with
    | nil => simp at hlen
    | cons v vs =>
      cases p with
      | zero => simp [zeroComponent]
      | succ q =>
        simp only [zeroComponent, List.getD_cons_succ]
        exact ih vs q (by simpa using hlen) (by simpa using hp)

/-- `zeroComponent` never adds nonzero pixels. -/
theorem countNonZero_zeroComponent_le (l : ℕ) : ∀ labels img : List ℕ,
    countNonZero (zeroComponent labels img l) ≤ countNonZero img := by
  intro labels
  induction labels with
  | nil =>
    intro img
    simp [zeroComponent, countNonZero]
  | cons a ls ih =>
    intro img
    cases img with
    | nil => simp [zeroComponent, countNonZero]
    | cons v vs =>
      simp only [zeroComponent, countNonZero]
      refine Nat.add_le_add ?_ (ih vs)
      by_cases ha : a = l
      · simp [ha]
      · simp [ha]

/-- `killStep` preserves the image length (under the labelling's length). -/
theorem killStep_length (minSize : ℕ) (labels acc : List ℕ) (l : ℕ)
    (h : labels.length = acc.length) :
    (killStep minSize labels acc l).length = acc.length := by
  unfold killStep
  split
  · rfl
  · split
    · rw [zeroComponent_length, h, Nat.min_self]
    · rfl

/-- `killStep` never adds nonzero pixels. -/
theorem countNonZero_killStep_le (minSize : ℕ) (labels acc : List ℕ) (l : ℕ) :
    countNonZero (killStep minSize labels acc l) ≤ countNonZero acc := by
  unfold killStep
  split
  · exact Nat.le_refl _
  · split
    · exact countNonZero_zeroComponent_le l labels acc
    · exact Nat.le_refl _

/-- `killStep` never revives a zero pixel. -/
theorem killStep_preserves_zero (minSize : ℕ) (labels acc : List ℕ) (l p : ℕ)
    (hlen : labels.length = acc.length) (hp : p < labels.length)
    (h : acc.getD p 0 = 0) :
    (killStep minSize labels acc l).getD p 0 = 0 := by
  unfold killStep
  split
  · exact h
  · split
    · rw [zeroComponent_getD l labels acc p hlen hp, h]
      split <;> rfl
    · exact h

/-- The kill loop over any label list preserves the image length. -/
theorem killFold_length (minSize : ℕ) (labels : List ℕ) : ∀ (ls acc : List ℕ),
    labels.length = acc.length →
    (ls.foldl (killStep minSize labels) acc).length = acc.length := by
  intro ls
  induction ls with
  | nil =>
    intro acc _
    rfl
  | cons l ls ih =>
    intro acc hlen
    rw [List.foldl_cons]
    rw [ih (killStep minSize labels acc l)
      (by rw [killStep_length minSize labels acc l hlen]; exact hlen)]
    exact killStep_length minSize labels acc l hlen

/-- The kill loop never adds nonzero pixels. -/
theorem countNonZero_killFold_le (minSize : ℕ) (labels : List ℕ) :
    ∀ (ls acc : List ℕ),
    countNonZero (ls.foldl (killStep minSize labels) acc) ≤ countNonZero acc := by
  intro ls
  induction ls with
  | nil =>
    intro acc
    exact Nat.le_refl _
  | cons l ls ih =>
    intro acc
    rw [List.foldl_cons]
    exact Nat.le_trans (ih _) (countNonZero_killStep_le minSize labels acc l)

/-- The kill loop never revives a zero pixel. -/
theorem killFold_preserves_zero (minSize : ℕ) (labels : List ℕ) :
    ∀ (ls acc : List ℕ) (p : ℕ),
    labels.length = acc.length → p < labels.length → acc.getD p 0 = 0 →
    (ls.foldl (killStep minSize labels) acc).getD p 0 = 0 := by
  intro ls
  induction ls with
  | nil =>
    intro acc p _ _ h
    exact h
  | cons l ls ih =>
    intro acc p hlen hp h
    rw [List.foldl_cons]
    refine ih _ p ?_ hp ?_
    · rw [killStep_length minSize labels acc l hlen]
      exact hlen
    · exact killStep_preserves_zero minSize labels acc l p hlen hp h

/-- Once a pixel's label is in the processed list and its count is small,
the loop zeroes that pixel. -/
theorem killFold_kills (minSize : ℕ) (labels : List ℕ) :
    ∀ (ls acc : List ℕ) (p : ℕ),
    labels.length = acc.length → p < labels.length →
    labels.getD p 0 ∈ ls → labels.count (labels.getD p 0) < minSize →
    (ls.foldl (killStep minSize labels) acc).getD p 0 = 0 := by
  intro ls
  induction ls with
  | nil =>
    intro acc p _ _ hmem _
    cases hmem
  | cons l ls ih =>
    intro acc p hlen hp hmem hcount
    rw [List.foldl_cons]
    have hlen' : labels.length = (killStep minSize labels acc l).length := by
      rw [killStep_length minSize labels acc l hlen]
      exact hlen
    rcases List.mem_cons.mp hmem with heq | hmem'
    · have hpos : labels.count (labels.getD p 0) ≠ 0 := by
        have := List.count_pos_iff.mpr (getD_mem_of_lt hp)
        omega
      have hkill : (killStep minSize labels acc l).getD p 0 = 0 := by
        unfold killStep
        rw [← heq, if_neg hpos, if_pos hcount,
          zeroComponent_getD _ labels acc p hlen hp, if_pos rfl]
      exact killFold_preserves_zero minSize labels ls _ p hlen' hp hkill
    · exact ih _ p hlen' hp hmem' hcount

/-- Pixels of too-small components are zeroed by the whole loop. -/
theorem removeSmallComponents_kills (minSize : ℕ) (labels img : List ℕ) (p : ℕ)
    (hlen : labels.length = img.length) (hp : p < labels.length)
    (hcount : labels.count (labels.getD p 0) < minSize) :
    (removeSmallComponents minSize labels img).getD p 0 = 0 := by
  apply killFold_kills minSize labels _ img p hlen hp _ hcount
  exact List.mem_range.mpr
    (Nat.lt_succ_of_le (le_foldr_max (getD_mem_of_lt hp)))

/-- Pixels that survive the loop have component count ≥ `min_size`. -/
theorem removeSmallComponents_retained (minSize : ℕ) (labels img : List ℕ)
    (p : ℕ) (hlen : labels.length = img.length)
    (h : (removeSmallComponents minSize labels img).getD p 0 ≠ 0) :
    minSize ≤ labels.count (labels.getD p 0) := by
  rcases Nat.lt_or_ge p labels.length with hp | hp
  · by_contra hcount
    exact h (removeSmallComponents_kills minSize labels img p hlen hp
      (Nat.lt_of_not_le hcount))
  · exfalso
    apply h
    rw [List.getD_eq_getElem?_getD, List.getElem?_eq_none]
    · rfl
    · unfold removeSmallComponents
      rw [killFold_length minSize labels _ img hlen, ← hlen]
      exact hp

/-- The kill loop never adds nonzero pixels (stated on the wrapper). -/
theorem countNonZero_removeSmallComponents_le (minSize : ℕ)
    (labels img : List ℕ) :
    countNonZero (removeSmallComponents minSize labels img)
      ≤ countNonZero img :=
  countNonZero_killFold_le minSize labels _ img

/-- C2 counterexample: a candidate whose binary mask `[0, 255]` has one
foreground component of size 1, below `min_size = 2`.  The exporter leaves
the binary mask untouched, and the alpha channel of its composed output
still carries the small component's pixel (value 255), so the pixels of the
too-small component were not zeroed in the binary mask and the alpha channel
is not a cleaned mask, refuting the claim. -/
theorem exportCandidate_alpha_keeps_small_component :
    ((exportCandidate 2 [0, 1] [0, 255] [0, 255] [0, 99]).alpha.getD 1 0
        = 255) ∧
    List.count ([0, 1].getD 1 0) [0, 1] < 2 := by
  constructor
  · decide
  · decide

/-- C2 (amended): for every kept Candidate, when `min_size > 0` the exporter
zeroes the pixels of every connected component whose pixel count is below
`min_size` in the 3-channel color mask and in the extracted color image (but
not in the binary mask); every retained nonzero pixel of the cleaned
extracted image lies in a component of count ≥ `min_size`; the cleaned
rasters' scores are ≤ their pre-filter scores; and the alpha channel of the
composed 4-channel output is the pre-filter binary mask, unchanged. -/
theorem exportCandidate_spec (minSize : ℕ)
    (labels bwMask colorMask extracted : List ℕ)
    (hmin : 0 < minSize)
    (hl1 : labels.length = colorMask.length)
    (hl2 : labels.length = extracted.length) :
    (exportCandidate minSize labels bwMask colorMask extracted).alpha
      = bwMask ∧
    countNonZero
        (exportCandidate minSize labels bwMask colorMask extracted).colorMask
      ≤ countNonZero colorMask ∧
    countNonZero
        (exportCandidate minSize labels bwMask colorMask extracted).extracted
      ≤ countNonZero extracted ∧
    (∀ p, p < labels.length → labels.count (labels.getD p 0) < minSize →
      (exportCandidate minSize labels bwMask colorMask
          extracted).colorMask.getD p 0 = 0 ∧
      (exportCandidate minSize labels bwMask colorMask
          extracted).extracted.getD p 0 = 0) ∧
    (∀ p, (exportCandidate minSize labels bwMask colorMask
          extracted).extracted.getD p 0 ≠ 0 →
      minSize ≤ labels.count (labels.getD p 0)) := by
  have hexp : exportCandidate minSize labels bwMask colorMask extracted
      = ⟨removeSmallComponents minSize labels colorMask,
         removeSmallComponents minSize labels extracted, bwMask⟩ := by
    unfold exportCandidate
    rw [if_pos hmin]
  rw [hexp]
  refine ⟨rfl, ?_, ?_, ?_, ?_⟩
  · exact countNonZero_removeSmallComponents_le minSize labels colorMask
  · exact countNonZero_removeSmallComponents_le minSize labels extracted
  · intro p hp hcount
    exact ⟨removeSmallComponents_kills minSize labels colorMask p hl1 hp hcount,
           removeSmallComponents_kills minSize labels extracted p hl2 hp hcount⟩
  · intro p h
    exact removeSmallComponents_retained minSize labels extracted p hl2 h

/-- C2 witness: the amended theorem applied to a concrete 3-pixel candidate. -/
theorem exportCandidate_spec_witness :
    (exportCandidate 2 [0, 0, 1] [0, 255, 255] [7, 8, 9] [4, 5, 6]).alpha
      = [0, 255, 255] :=
  (exportCandidate_spec 2 [0, 0, 1] [0, 255, 255] [7, 8, 9] [4, 5, 6]
    (by decide) (by decide) (by decide)).1

/-- C5 counterexample: with a feature oracle that finds no trackable points
in the reference, processing frame `1` against reference `0` emits no output
frame but the reference advances to the dropped frame (`prev` becomes `1`,
not the old `0`), refuting "the next pair is compared using the same prev". -/
theorem stabilizeStep_advances_prev_counterexample :
    (stabilizeStep
      ({ cvtGray := fun f => f, goodFeaturesToTrack := fun _ => none,
         calcOpticalFlowPyrLK := fun _ _ p => (p, []),
         estimateRigidTransform := fun _ _ => none,
         atan2 := fun _ _ => 0, updateAccTransform := fun a _ => a,
         warpAffine := fun f _ => f, identityAcc := () } :
        StabOracles ℕ ℕ Unit)
      { prev := 0, prevGray := 0, accDx := 0, accDy := 0, accDa := 0,
        minAccDx := 0, maxAccDx := 0, minAccDy := 0, maxAccDy := 0,
        accTransform := (), stabilized := [0] } 1).prev = 1 ∧ (1 : ℕ) ≠ 0 := by
  constructor
  · rfl
  · decide

/-- C5 (amended): for every consecutive frame pair, if no trackable salient
points are found in `prev`, the current frame is dropped from the output
sequence (no frame emitted) — but the reference advances: the next pair is
compared using the dropped `cur` as the new `prev`, not the same `prev`. -/
theorem stabilizeStep_feature_failure {Frame Gray Acc : Type}
    (env : StabOracles Frame Gray Acc) (s : StabState Frame Gray Acc)
    (cur : Frame)
    (h : env.goodFeaturesToTrack s.prevGray = none) :
    (stabilizeStep env s cur).stabilized = s.stabilized ∧
    (stabilizeStep env s cur).prev = cur ∧
    (stabilizeStep env s cur).prevGray = env.cvtGray cur := by
  unfold stabilizeStep
  rw [h]
  exact ⟨rfl, rfl, rfl⟩

/-- C5 witness: the amended theorem applied to a concrete failing step. -/
theorem stabilizeStep_feature_failure_witness :
    (stabilizeStep
      ({ cvtGray := fun f => f, goodFeaturesToTrack := fun _ => none,
         calcOpticalFlowPyrLK := fun _ _ p => (p, []),
         estimateRigidTransform := fun _ _ => none,
         atan2 := fun _ _ => 0, updateAccTransform := fun a _ => a,
         warpAffine := fun f _ => f, identityAcc := () } :
        StabOracles ℕ ℕ Unit)
      { prev := 5, prevGray := 5, accDx := 0, accDy := 0, accDa := 0,
        minAccDx := 0, maxAccDx := 0, minAccDy := 0, maxAccDy := 0,
        accTransform := (), stabilized := [5] } 6).stabilized = [5] :=
  (stabilizeStep_feature_failure _ _ 6 rfl).1

end Lighthouse
